import Mathlib

/-!
Verification development for the SQL execution layer of a Databricks
full-stack app template: identifier escaping, warehouse batching, result-row
type conversion, retry, TTL/LRU cache, and the Lakebase (PostgreSQL) OAuth
token manager and sync backend.  Python sources are embedded shallowly:
strings stay strings, time is a `Nat` parameter (seconds), exceptions become
`Except`, and the environment (workspace client, OS environment variables,
query outcomes) is passed explicitly.
-/

/-- The backtick character, quote character of the warehouse SQL dialect. -/
def btick : Char := Char.ofNat 96

/-- The double-quote character, quote character of the PostgreSQL dialect. -/
def dquote : Char := Char.ofNat 34

/-- The single-quote character, used for SQL string literals. -/
def squote : Char := Char.ofNat 39

/-- Models Python `str.strip(chars)`: removes all leading and trailing
characters that belong to `chars`. -/
def pyStrip (s : String) (chars : List Char) : String :=
  String.mk (((s.toList.dropWhile (· ∈ chars)).reverse.dropWhile (· ∈ chars)).reverse)

/-- Character-level replacement on a list of characters: every occurrence of
`old` is replaced by the string `new`.  For a single-character pattern this
coincides with Python `str.replace(old, new)`, the only form the source uses. -/
def replaceChar (old : Char) (new : List Char) : List Char → List Char
  | [] => []
  | c :: rest => (if c = old then new else [c]) ++ replaceChar old new rest

/-- Models Python `str.replace(old, new)` for a single-character `old`. -/
def pyReplaceChar (s : String) (old : Char) (new : String) : String :=
  String.mk (replaceChar old new.toList s.toList)

/-- Models Python `str.lower()` character by character (all strings the
embedded code lowers are ASCII). -/
def pyLower (s : String) : String := String.mk (s.toList.map Char.toLower)

/-- Helper for `pySplitMax`: `acc` is the current (reversed) segment,
`remaining` the number of splits still allowed. -/
def pySplitMaxGo (sep : Char) : Nat → List Char → List Char → List String
  | _, acc, [] => [String.mk acc.reverse]
  | 0, acc, c :: rest => pySplitMaxGo sep 0 (c :: acc) rest
  | remaining + 1, acc, c :: rest =>
    if c = sep then String.mk acc.reverse :: pySplitMaxGo sep remaining [] rest
    else pySplitMaxGo sep (remaining + 1) (c :: acc) rest

/-- Models Python `s.split(sep, maxsplit)` for a single-character separator. -/
def pySplitMax (s : String) (sep : Char) (maxsplit : Nat) : List String :=
  pySplitMaxGo sep maxsplit [] s.toList

/-- Substring test: `containsSub s pat` holds iff `pat` occurs contiguously in
`s`; models Python `pat in s`. -/
def containsSub (s pat : String) : Bool := decide (pat.toList <:+: s.toList)

/-! ## sql_escapes.py -/

/-- `escape_name` from `sql_escapes.py`: strips existing backticks, doubles the
internal ones and wraps the result in backticks. -/
def escape_name (name : String) : String :=
  let name1 := pyStrip name [btick]
  let name2 := pyReplaceChar name1 btick "``"
  "`" ++ name2 ++ "`"

/-- `escape_full_name` from `sql_escapes.py`: splits on `.` with at most two
splits and escapes each part. -/
def escape_full_name (fullName : String) : String :=
  let parts := pySplitMax fullName (Char.ofNat 46) 2
  String.intercalate "." (parts.map escape_name)

/-- `escape_pg_name` from `sql_escapes.py`: double-quote dialect. -/
def escape_pg_name (name : String) : String :=
  let name1 := pyStrip name [dquote]
  let name2 := pyReplaceChar name1 dquote (String.mk [dquote, dquote])
  String.singleton dquote ++ name2 ++ String.singleton dquote

/-- `escape_pg_full_name` from `sql_escapes.py`: splits on `.` with at most one
split and escapes each part. -/
def escape_pg_full_name (fullName : String) : String :=
  let parts := pySplitMax fullName (Char.ofNat 46) 1
  String.intercalate "." (parts.map escape_pg_name)

/-! ## Python values and exceptions

Cells and record fields in the sources are dynamically typed Python values.
Only the shapes the embedded code distinguishes are modelled. -/

/-- A Python value as far as the embedded code inspects it: `None`, `bool`,
`int`, `str`, or a `decimal.Decimal` (carried as its string form). -/
inductive PyVal
  | null
  | bool (b : Bool)
  | int (n : Int)
  | str (s : String)
  | decimal (s : String)
deriving DecidableEq, Repr

/-- The Python exception classes the embedded code distinguishes:
`_convert_row` catches exactly `ValueError` and `TypeError`;
`decimal.InvalidOperation` is a subclass of `ArithmeticError`, and indexing
past the end of a list raises `IndexError`. -/
inductive PyExc
  | valueError
  | typeError
  | arithmeticError
  | indexError
deriving DecidableEq, Repr

deriving instance DecidableEq for Except

/-! ## sql_backends.py — SqlBackend.save_table (warehouse dialect) -/

/-- `SqlBackend._escape_value` from `sql_backends.py`: `None` → `NULL`,
booleans → `TRUE`/`FALSE`, numbers via `str`, strings with single quotes
doubled and wrapped; any other value (here: `Decimal`) is rendered via `str`
and wrapped without quote doubling. -/
def SqlBackend._escape_value (v : PyVal) : String :=
  match v with
  | .null => "NULL"
  | .bool b => if b then "TRUE" else "FALSE"
  | .int n => toString n
  | .str s => String.singleton squote ++ pyReplaceChar s squote (String.mk [squote, squote]) ++ String.singleton squote
  | .decimal s => String.singleton squote ++ s ++ String.singleton squote

/-- Fuel-indexed worker for `chunksOf`; the fuel only serves structural
termination and `chunksOf` always supplies enough of it. -/
def chunksOfGo (n : Nat) : Nat → List α → List (List α)
  | 0, _ => []
  | fuel + 1, l =>
    if l.length = 0 ∨ n = 0 then []
    else l.take n :: chunksOfGo n fuel (l.drop n)

/-- Splits a list into consecutive chunks of `n` elements (the last chunk may
be shorter); mirrors the `range(0, len(rows_list), 1000)` slicing loop of
`save_table`. -/
def chunksOf (n : Nat) (l : List α) : List (List α) :=
  chunksOfGo n l.length l

/-- The `TRUNCATE` statement `save_table` issues in overwrite mode. -/
def truncateStatement (fullName : String) : String :=
  "TRUNCATE TABLE " ++ escape_full_name fullName

/-- The batched `INSERT` statement `save_table` builds for one batch of rows,
with inlined escaped literal values. -/
def insertStatement (fullName : String) (fieldNames : List String) (batch : List (List PyVal)) : String :=
  let escapedCols := String.intercalate ", " (fieldNames.map escape_name)
  let valuesSql := batch.map fun row =>
    "(" ++ String.intercalate ", " (row.map SqlBackend._escape_value) ++ ")"
  "INSERT INTO " ++ escape_full_name fullName ++ " (" ++ escapedCols ++ ") VALUES "
    ++ String.intercalate ", " valuesSql

/-- `SqlBackend.save_table` from `sql_backends.py`, observed as the list of SQL
statements passed to `execute`, in order.  A record is embedded as the list of
its field values read off in `fields(klass)` order (`fieldNames`).  An empty
record list is a no-op; `mode = "overwrite"` truncates first; inserts are
batched 1000 rows per statement with inlined escaped literals. -/
def save_table (fullName : String) (rows : List (List PyVal)) (fieldNames : List String)
    (mode : String) : List String :=
  if rows.length = 0 then []
  else
    (if mode = "overwrite" then [truncateStatement fullName] else [])
      ++ (chunksOf 1000 rows).map (insertStatement fullName fieldNames)

/-! ## sql_core.py — type converters and StatementExecutionBackend._convert_row -/

/-- All characters of the list are decimal digits and the list is nonempty. -/
def isDigits (l : List Char) : Bool := !l.isEmpty && l.all Char.isDigit

/-- Drops one leading `+` or `-` sign if present. -/
def stripSign (l : List Char) : List Char :=
  match l with
  | c :: rest => if c = '+' || c = '-' then rest else c :: rest
  | [] => []

/-- Digit-and-dot significand of a decimal literal: `digits`, `digits.digits`,
`digits.` or `.digits`. -/
def decSignificand (l : List Char) : Bool :=
  match l.splitOn '.' with
  | [a] => isDigits a
  | [a, b] => (!a.isEmpty || !b.isEmpty) && a.all Char.isDigit && b.all Char.isDigit
  | _ => false

/-- Splits a candidate decimal literal at the first `e`/`E`, if any. -/
def splitExp (l : List Char) : List Char × Option (List Char) :=
  match l.span (fun c => !(c = 'e' || c = 'E')) with
  | (a, []) => (a, none)
  | (a, _ :: b) => (a, some b)

/-- Models the string grammar accepted by Python `decimal.Decimal`: optional
surrounding whitespace and sign, then a finite numeral (optionally with a
fractional part and an exponent), or `inf`/`infinity`/`nan`/`snan`
(case-insensitive, `nan`/`snan` with an optional digit payload).  Underscore
digit grouping is omitted.  Any other string makes the constructor raise
`decimal.InvalidOperation`. -/
def isDecimalLiteral (s : String) : Bool :=
  let l := ((s.toList.dropWhile Char.isWhitespace).reverse.dropWhile Char.isWhitespace).reverse
  let l := stripSign l
  let lw := l.map Char.toLower
  if lw = "inf".toList || lw = "infinity".toList then true
  else if "nan".toList.isPrefixOf lw && (lw.drop 3).all Char.isDigit then true
  else if "snan".toList.isPrefixOf lw && (lw.drop 4).all Char.isDigit then true
  else
    match splitExp l with
    | (a, none) => decSignificand a
    | (a, some b) => decSignificand a && isDigits (stripSign b)

/-- `_parse_decimal` from `sql_core.py`, i.e. `Decimal(value)`: an invalid
literal raises `decimal.InvalidOperation`, which is a subclass of
`ArithmeticError` — not of `ValueError` or `TypeError`. -/
def _parse_decimal (s : String) : Except PyExc PyVal :=
  if isDecimalLiteral s then .ok (.decimal s) else .error .arithmeticError

/-- Numeric value of a digit list (most significant first). -/
def digitsToNat (l : List Char) : Nat :=
  l.foldl (fun n c => n * 10 + (c.toNat - 48)) 0

/-- Models Python `int(value)` for a string argument, the `INT`/`BIGINT`
converter of `TYPE_CONVERTERS`: optional surrounding whitespace, optional
sign, nonempty digits (underscore grouping omitted); anything else raises
`ValueError`. -/
def pyIntOfString (s : String) : Except PyExc PyVal :=
  let l := ((s.toList.dropWhile Char.isWhitespace).reverse.dropWhile Char.isWhitespace).reverse
  let core := stripSign l
  if isDigits core then
    let n : Int := digitsToNat core
    .ok (.int (if l.head? = some '-' then -n else n))
  else .error .valueError

/-- The `BOOLEAN` converter of `TYPE_CONVERTERS`:
`lambda x: x.lower() == "true"`; never raises. -/
def pyBoolConv (s : String) : Except PyExc PyVal :=
  .ok (.bool (pyLower s = "true"))

/-- One cell of `StatementExecutionBackend._convert_row`: `None` stays `None`,
a missing converter keeps the raw string, a converter failure with
`ValueError` or `TypeError` degrades to the raw string, and any other
exception propagates. -/
def convertCell (v : Option String) (conv : Option (String → Except PyExc PyVal)) :
    Except PyExc PyVal :=
  match v with
  | none => .ok .null
  | some s =>
    match conv with
    | none => .ok (.str s)
    | some f =>
      match f s with
      | .ok x => .ok x
      | .error .valueError => .ok (.str s)
      | .error .typeError => .ok (.str s)
      | .error e => .error e

/-- `StatementExecutionBackend._convert_row` from `sql_backends.py`: converts
the cells of one raw row left to right; the first uncaught exception aborts
the whole row.  Running out of converters models the `IndexError` Python
would raise on `converters[i]`. -/
def _convert_row : List (Option String) → List (Option (String → Except PyExc PyVal)) →
    Except PyExc (List PyVal)
  | [], _ => .ok []
  | _ :: _, [] => .error .indexError
  | v :: vs, conv :: cs =>
    match convertCell v conv with
    | .error e => .error e
    | .ok x =>
      match _convert_row vs cs with
      | .error e => .error e
      | .ok xs => .ok (x :: xs)
/-- A converter all of whose failures are `ValueError` or `TypeError`, i.e.
fully covered by the `except (ValueError, TypeError)` clause of
`_convert_row`. -/
def tameConv (f : String → Except PyExc PyVal) : Prop :=
  ∀ s e, f s = .error e → e = .valueError ∨ e = .typeError

/-- The per-cell outcome the spec describes: the converted value, or the raw
uninterpreted string when the conversion failed. -/
def cellResult (v : Option String) (conv : Option (String → Except PyExc PyVal)) : PyVal :=
  match convertCell v conv with
  | .ok x => x
  | .error _ => .str (v.getD "")

/-! ## utils/retry.py — the sync_wrapper of the retry decorator -/

/-- Result channel of the retry wrapper: either the wrapped function's own
exception propagates, or the `RuntimeError("Unexpected retry state")` raised
when the loop body never ran (`max_attempts < 1`). -/
inductive RetryOutcomeErr (ε : Type)
  | exc (e : ε)
  | unexpectedState
deriving DecidableEq, Repr

/-- One iteration (and its successors) of `sync_wrapper`'s
`for attempt in range(1, max_attempts + 1)` loop.  The wrapped function is an
oracle `f` from the 1-indexed attempt number to that call's outcome;
`retryable e` models `isinstance(e, cfg.retryable_exceptions)`.  `remaining`
counts the loop iterations still available (so `remaining = 0` after the
current call means `attempt == max_attempts`).  The returned `Nat` counts how
many times `f` was called.  Backoff delays (`cfg.calculate_delay`, jittered)
only pause the loop and are not modelled. -/
def syncRetryGo (retryable : ε → Bool) (f : Nat → Except ε α) :
    Nat → Nat → Except (RetryOutcomeErr ε) α × Nat
  | 0, attempt => (.error .unexpectedState, attempt - 1)
  | remaining + 1, attempt =>
    match f attempt with
    | .ok a => (.ok a, attempt)
    | .error e =>
      if retryable e then
        if remaining = 0 then (.error (.exc e), attempt)
        else syncRetryGo retryable f remaining (attempt + 1)
      else (.error (.exc e), attempt)

/-- `sync_wrapper` from `utils/retry.py`: calls `f` up to `maxAttempts` times,
returning the first success; a non-retryable failure propagates immediately,
and exhaustion re-raises the last observed failure. -/
def syncRetry (retryable : ε → Bool) (maxAttempts : Nat) (f : Nat → Except ε α) :
    Except (RetryOutcomeErr ε) α × Nat :=
  syncRetryGo retryable f maxAttempts 1

/-! ## utils/cache.py — TTLCache and the ttl_cache decorator -/

/-- `TTLCache` from `utils/cache.py`: the `OrderedDict` is a list of
`(key, value, expiry)` entries, first entry = least recently used, and the
monotonic clock is an explicit `Nat`. -/
structure TTLCache (κ ν : Type) where
  maxsize : Nat
  ttl_seconds : Nat
  cache : List (κ × ν × Nat)
deriving Repr

/-- The keys of the ordered dict, in recency order. -/
def cacheKeys (l : List (κ × ν × Nat)) : List κ := l.map fun e => e.1

/-- Ordered-dict lookup: value and expiry stored under `key`, if any. -/
def lookupKey [DecidableEq κ] (key : κ) : List (κ × ν × Nat) → Option (ν × Nat)
  | [] => none
  | e :: rest => if e.1 = key then some e.2 else lookupKey key rest

/-- Removes the (first) entry stored under `key`, mirroring `del d[key]`. -/
def eraseKey [DecidableEq κ] (key : κ) : List (κ × ν × Nat) → List (κ × ν × Nat)
  | [] => []
  | e :: rest => if e.1 = key then rest else e :: eraseKey key rest

/-- `OrderedDict.move_to_end(key)`: the entry under `key` moves to the
most-recently-used end; no-op if the key is absent. -/
def moveToEnd [DecidableEq κ] (key : κ) (l : List (κ × ν × Nat)) : List (κ × ν × Nat) :=
  match lookupKey key l with
  | none => l
  | some ve => eraseKey key l ++ [(key, ve.1, ve.2)]

/-- `d[key] = value` on an ordered dict: updates the entry in place if the key
is present, appends it at the most-recently-used end otherwise. -/
def dictSet [DecidableEq κ] (key : κ) (v : ν) (exp : Nat) :
    List (κ × ν × Nat) → List (κ × ν × Nat)
  | [] => [(key, v, exp)]
  | e :: rest => if e.1 = key then (key, v, exp) :: rest else e :: dictSet key v exp rest

/-- Fuel-indexed worker for `evictOver`; the fuel only serves structural
termination and `evictOver` always supplies enough of it. -/
def evictOverGo (maxsize : Nat) : Nat → List (κ × ν × Nat) → List (κ × ν × Nat)
  | 0, l => l
  | fuel + 1, l => if maxsize < l.length then evictOverGo maxsize fuel l.tail else l

/-- The `while len(self._cache) > self.maxsize: self._cache.popitem(last=False)`
eviction loop: pops least-recently-used entries until within capacity. -/
def evictOver (maxsize : Nat) (l : List (κ × ν × Nat)) : List (κ × ν × Nat) :=
  evictOverGo maxsize l.length l

/-- `TTLCache.get` from `utils/cache.py`: absent → `None`; expired → entry
deleted and `None`; otherwise the entry is moved to the recent end and its
value returned. -/
def TTLCache.get [DecidableEq κ] (c : TTLCache κ ν) (key : κ) (now : Nat) :
    Option ν × TTLCache κ ν :=
  match lookupKey key c.cache with
  | none => (none, c)
  | some (v, expiry) =>
    if expiry < now then (none, { c with cache := eraseKey key c.cache })
    else (some v, { c with cache := moveToEnd key c.cache })

/-- `TTLCache.set` from `utils/cache.py`: refreshes recency if the key
exists, stores the value with expiry `now + ttl_seconds`, then evicts
least-recently-used entries while over capacity. -/
def TTLCache.set [DecidableEq κ] (c : TTLCache κ ν) (key : κ) (v : ν) (now : Nat) :
    TTLCache κ ν :=
  let expiry := now + c.ttl_seconds
  let l1 := if (lookupKey key c.cache).isSome then moveToEnd key c.cache else c.cache
  { c with cache := evictOver c.maxsize (dictSet key v expiry l1) }

/-- The `wrapper` closure of the `ttl_cache` decorator in `utils/cache.py`,
for one argument-tuple `key`.  The wrapped Python function may return `None`,
so its result is an `Option ν`; `cache.get` returns the stored value or
`None`, which the wrapper cannot tell from a miss (`if result is not None`).
Returns the call result, the new cache state, and whether the underlying
function was invoked. -/
def ttlWrapperCall [DecidableEq κ] (c : TTLCache κ (Option ν)) (f : κ → Option ν)
    (key : κ) (now : Nat) : Option ν × TTLCache κ (Option ν) × Bool :=
  let r := c.get key now
  match r.1.join with
  | some x => (some x, r.2, false)
  | none =>
    let res := f key
    (res, r.2.set key res now, true)

/-! ## clients/lakebase_backends.py — OAuth token manager

The Databricks workspace client and the OS environment are oracles: each
token source is the `Option String` it would yield.  Time is the wall clock
`time.time()` passed in as `now` (seconds). -/

/-- Token refresh interval: 50 minutes for a 1-hour credential TTL. -/
def TOKEN_REFRESH_INTERVAL : Nat := 50 * 60

/-- Oracle for the workspace client's three token sources:
`genDbCredentialTok` is `generate_database_credential(...).access_token`
(`none` on exception or a missing credential), `oauthTok` is
`config.oauth_token().access_token` (`none` on exception or missing), and
`headerAuth` is the `Authorization` header produced by
`config.header_factory()` (`none` when there is no factory, it raises, or the
header is missing). -/
structure WorkspaceClientEnv where
  genDbCredentialTok : Option String := none
  oauthTok : Option String := none
  headerAuth : Option String := none
deriving DecidableEq, Repr

/-- The two environment variables `_refresh_token` consults; `none` models an
unset variable. -/
structure EnvVars where
  pgPassword : Option String := none
  databricksToken : Option String := none
deriving DecidableEq, Repr

/-- `OAuthTokenManager` state: cached token, last-refresh timestamp, refresh
interval, the workspace client, the Lakebase instance name, and whether
environment fallback is enabled. -/
structure OAuthTokenManager where
  token : Option String := none
  lastRefresh : Nat := 0
  refreshInterval : Nat := TOKEN_REFRESH_INTERVAL
  workspaceClient : Option WorkspaceClientEnv := none
  instanceName : Option String := none
  useEnvFallback : Bool := true
deriving DecidableEq, Repr

/-- Methods 1 to 3 of `_refresh_token`, tried only when a workspace client is
present: the dedicated `generate_database_credential` call (only when an
instance name is configured, and only a truthy `access_token` counts), then
`config.oauth_token()` (truthy `access_token`), then a `Bearer `-prefixed
`Authorization` header with the prefix stripped. -/
def wsCandidate (ws : WorkspaceClientEnv) (hasInstanceName : Bool) : Option String :=
  let m1 : Option String :=
    if hasInstanceName then
      match ws.genDbCredentialTok with
      | some t => if t = "" then none else some t
      | none => none
    else none
  match m1 with
  | some t => some t
  | none =>
    let m2 : Option String :=
      match ws.oauthTok with
      | some t => if t = "" then none else some t
      | none => none
    match m2 with
    | some t => some t
    | none =>
      match ws.headerAuth with
      | some h => if h.startsWith "Bearer " then some (h.drop 7) else none
      | none => none

/-- Methods 4 and 5 of `_refresh_token`: `PGPASSWORD`, accepted only when
longer than 20 characters, then a truthy `DATABRICKS_TOKEN`. -/
def envCandidate (env : EnvVars) : Option String :=
  let m4 : Option String :=
    match env.pgPassword with
    | some p => if 20 < p.length then some p else none
    | none => none
  match m4 with
  | some t => some t
  | none =>
    match env.databricksToken with
    | some t => if t = "" then none else some t
    | none => none

/-- The first token source of `_refresh_token` that succeeds, in source
order; environment fallbacks only when `_use_env_fallback` is enabled. -/
def refreshCandidate (m : OAuthTokenManager) (env : EnvVars) : Option String :=
  match m.workspaceClient with
  | some ws =>
    match wsCandidate ws m.instanceName.isSome with
    | some t => some t
    | none => if m.useEnvFallback then envCandidate env else none
  | none => if m.useEnvFallback then envCandidate env else none

/-- `OAuthTokenManager._refresh_token`: every successful source performs the
same update (`self._token = ...; self._last_refresh = time.time(); return
True`), so the branches are factored through `refreshCandidate`; on failure
the state is left untouched and `False` is returned. -/
def OAuthTokenManager._refresh_token (m : OAuthTokenManager) (env : EnvVars) (now : Nat) :
    Bool × OAuthTokenManager :=
  match refreshCandidate m env with
  | some t => (true, { m with token := some t, lastRefresh := now })
  | none => (false, m)

/-- `OAuthTokenManager.get_token`: refreshes when the token was never fetched
or its age exceeds the refresh interval, then returns `self._token or ""`.
The third component records whether `_refresh_token` was invoked. -/
def OAuthTokenManager.get_token (m : OAuthTokenManager) (env : EnvVars) (now : Nat) :
    String × OAuthTokenManager × Bool :=
  if m.token = none ∨ m.refreshInterval < now - m.lastRefresh then
    let m1 := (m._refresh_token env now).2
    (m1.token.getD "", m1, true)
  else
    (m.token.getD "", m, false)

/-- `OAuthTokenManager.invalidate`: resets the freshness clock only. -/
def OAuthTokenManager.invalidate (m : OAuthTokenManager) : OAuthTokenManager :=
  { m with lastRefresh := 0 }

/-- `OAuthTokenManager.from_workspace_client`: a fresh manager bound to the
workspace client with environment fallback disabled. -/
def OAuthTokenManager.from_workspace_client (ws : WorkspaceClientEnv)
    (instanceName : Option String) : OAuthTokenManager :=
  { workspaceClient := some ws, instanceName := instanceName, useEnvFallback := false }

/-! ## clients/lakebase_backends.py — sync backend and auth retry -/

/-- A psycopg exception, identified by its message (the auth heuristic only
inspects the message). -/
structure PgError where
  msg : String
deriving DecidableEq, Repr

/-- `LakebaseBackend._is_auth_error`: the lowered message contains
`"authentication"` or `"password"`. -/
def LakebaseBackend._is_auth_error (e : PgError) : Bool :=
  containsSub (pyLower e.msg) "authentication" || containsSub (pyLower e.msg) "password"

/-- `PostgresConfig` from `clients/lakebase_backends.py` (explicit-argument
variant), with its defaults. -/
structure PostgresConfig where
  host : String
  port : String := "5432"
  database : String := "databricks_postgres"
  user : String := "token"
  sslmode : String := "require"
  hostaddr : Option String := none
deriving DecidableEq, Repr

/-- `PostgresConfig.build_connection_string`: the OAuth token fills the
password slot; `hostaddr` is appended when pre-resolved. -/
def PostgresConfig.build_connection_string (c : PostgresConfig) (password : String) : String :=
  let connStr := "postgresql://" ++ c.user ++ ":" ++ password ++ "@" ++ c.host ++ ":"
    ++ c.port ++ "/" ++ c.database ++ "?sslmode=" ++ c.sslmode
  match c.hostaddr with
  | some ip => connStr ++ "&hostaddr=" ++ ip
  | none => connStr

/-- `SyncLakebaseBackend` state: optional fixed connection string, the token
manager, optional config, and the live connection.  A connection is
identified by the connection string it was opened with. -/
structure SyncLakebaseBackend where
  connectionString : Option String := none
  mgr : OAuthTokenManager
  pgConfig : Option PostgresConfig := none
  conn : Option String := none
deriving DecidableEq, Repr

/-- `LakebaseBackend._build_connection_string`: a fixed connection string wins;
otherwise the config (a `ValueError` if unset) plus the manager's current
token. -/
def SyncLakebaseBackend._build_connection_string (b : SyncLakebaseBackend)
    (env : EnvVars) (now : Nat) : Except PgError (String × SyncLakebaseBackend) :=
  match b.connectionString with
  | some cs => .ok (cs, b)
  | none =>
    match b.pgConfig with
    | none => .error ⟨"pg_config not set. Pass pg_config when constructing the backend."⟩
    | some cfg =>
      let r := b.mgr.get_token env now
      .ok (cfg.build_connection_string r.1, { b with mgr := r.2.1 })

/-- `SyncLakebaseBackend._get_connection`: builds the connection string, then
reuses the open connection or opens one with that string.  A failure to
connect is part of the attempt outcome supplied to the operation, not of this
state transition. -/
def SyncLakebaseBackend._get_connection (b : SyncLakebaseBackend)
    (env : EnvVars) (now : Nat) : Except PgError (String × SyncLakebaseBackend) :=
  match b._build_connection_string env now with
  | .error e => .error e
  | .ok (cs, b1) =>
    match b1.conn with
    | some c => .ok (c, b1)
    | none => .ok (cs, { b1 with conn := some cs })

/-- `SyncLakebaseBackend._reconnect`: closes and discards the connection and
invalidates the token. -/
def SyncLakebaseBackend._reconnect (b : SyncLakebaseBackend) : SyncLakebaseBackend :=
  { b with conn := none, mgr := b.mgr.invalidate }

/-- Observable steps of a sync backend call: an operation attempt on a
connection (identified by its connection string), a connection close, and a
token invalidation. -/
inductive PgEvent
  | attempt (conn : String)
  | closeConn
  | invalidateTok
deriving DecidableEq, Repr

/-- `SyncLakebaseBackend.execute`: the cursor outcomes of the first attempt
and of the (at most one) retry attempt are the oracles `o1`, `o2` (`.ok` is
the `cur.rowcount` of a committed statement).  On an exception classified as
an auth error the backend reconnects (close + token invalidation), reopens
with a fresh token and retries once, propagating that second outcome as is;
any other exception propagates unmodified. -/
def SyncLakebaseBackend.executeOp (b : SyncLakebaseBackend) (env : EnvVars) (now : Nat)
    (o1 o2 : Except PgError Int) :
    Except PgError Int × SyncLakebaseBackend × List PgEvent :=
  match b._get_connection env now with
  | .error e => (.error e, b, [])
  | .ok (c1, b1) =>
    match o1 with
    | .ok n => (.ok n, b1, [.attempt c1])
    | .error e =>
      if LakebaseBackend._is_auth_error e then
        let b2 := b1._reconnect
        match b2._get_connection env now with
        | .error e2 => (.error e2, b2, [.attempt c1, .closeConn, .invalidateTok])
        | .ok (c2, b3) => (o2, b3, [.attempt c1, .closeConn, .invalidateTok, .attempt c2])
      else (.error e, b1, [.attempt c1])

/-- A result row: the shared column-name list of the `Row.factory` subclass
plus this row's values. -/
structure ResultRow where
  _fields : List String
  values : List PyVal
deriving DecidableEq, Repr

/-- `SyncLakebaseBackend.fetch`: same retry protocol as `executeOp`; a
successful cursor outcome is the column-name list of `cur.description` plus
the raw rows, which are wrapped in the `Row` subclass built once per call. -/
def SyncLakebaseBackend.fetchOp (b : SyncLakebaseBackend) (env : EnvVars) (now : Nat)
    (o1 o2 : Except PgError (List String × List (List PyVal))) :
    Except PgError (List ResultRow) × SyncLakebaseBackend × List PgEvent :=
  match b._get_connection env now with
  | .error e => (.error e, b, [])
  | .ok (c1, b1) =>
    match o1 with
    | .ok (cols, raws) => (.ok (raws.map fun r => ⟨cols, r⟩), b1, [.attempt c1])
    | .error e =>
      if LakebaseBackend._is_auth_error e then
        let b2 := b1._reconnect
        match b2._get_connection env now with
        | .error e2 => (.error e2, b2, [.attempt c1, .closeConn, .invalidateTok])
        | .ok (c2, b3) =>
          match o2 with
          | .ok (cols, raws) =>
            (.ok (raws.map fun r => ⟨cols, r⟩), b3,
              [.attempt c1, .closeConn, .invalidateTok, .attempt c2])
          | .error e2 =>
            (.error e2, b3, [.attempt c1, .closeConn, .invalidateTok, .attempt c2])
      else (.error e, b1, [.attempt c1])

/-! ## General helper lemmas -/

/-- `toList` distributes over string append. -/
theorem toList_append (a b : String) : (a ++ b).toList = a.toList ++ b.toList := by
  simp [String.toList]

/-- `toList` undoes `String.mk`. -/
theorem toList_mk (l : List Char) : (String.mk l).toList = l := rfl

/-- A one-element pattern occurs as an infix iff the element occurs. -/
theorem singleton_infix_iff_mem (a : α) (l : List α) : [a] <:+: l ↔ a ∈ l := by
  constructor
  · intro h
    exact (List.singleton_sublist.mp h.sublist)
  · intro h
    obtain ⟨s, t, rfl⟩ := List.append_of_mem h
    have : s ++ a :: t = s ++ [a] ++ t := by simp
    rw [this]
    exact List.infix_append s [a] t

/-- `containsSub` agrees with list-level infix occurrence. -/
theorem containsSub_iff (s pat : String) :
    containsSub s pat = true ↔ pat.toList <:+: s.toList := by
  simp [containsSub]

/-- Replacing every backtick by a doubled backtick produces a doubled backtick
whenever the input contains one. -/
theorem replaceChar_btick_doubles (l : List Char) (h : btick ∈ l) :
    [btick, btick] <:+: replaceChar btick [btick, btick] l := by
  induction l with
  | nil => simp at h
  | cons c rest ih =>
    rw [replaceChar]
    by_cases hc : c = btick
    · rw [if_pos hc]
      exact (List.prefix_append [btick, btick] _).isInfix
    · rw [if_neg hc]
      have hm : btick ∈ rest := by
        rcases List.mem_cons.mp h with h1 | h1
        · exact absurd h1.symm hc
        · exact h1
      exact List.infix_cons (ih hm)

/-! ## C9 — identifier escaping -/

/-- C9 (as stated) is false: the input `` `a` `` contains the backtick, the
dialect quote character, yet `escape_name` strips the outer backticks first,
so its output contains no doubled backtick at all. -/
theorem c9_counterexample :
    containsSub "`a`" "`" = true
    ∧ escape_name "`a`" = "`a`"
    ∧ containsSub (escape_name "`a`") "``" = false := by decide

/-- C9 (amended): for every identifier that still contains the backtick — the
dialect quote character — after stripping leading and trailing backticks,
`escape_name` produces a string in which the backtick appears doubled; for
every identifier containing the backtick, the output is wrapped in backticks
(the wrapping clause keeps the original scope, only the doubling clause is
re-scoped by the counterexample); `escape_full_name "a.b.c"` yields exactly
the three independently escaped, dot-joined segments. -/
theorem c9_escape_amended :
    (∀ name : String, containsSub (pyStrip name [btick]) "`" = true →
      containsSub (escape_name name) "``" = true)
    ∧ (∀ name : String, containsSub name "`" = true →
      ∃ mid, escape_name name = "`" ++ mid ++ "`")
    ∧ escape_full_name "a.b.c" = String.intercalate "."
        ([escape_name "a", escape_name "b", escape_name "c"]) := by
  refine ⟨?_, fun name _ => ⟨pyReplaceChar (pyStrip name [btick]) btick "``", rfl⟩, by decide⟩
  intro name h
  have hq : String.toList "`" = [btick] := by decide
  have hqq : String.toList "``" = [btick, btick] := by decide
  have hmem : btick ∈ (pyStrip name [btick]).toList := by
    have h1 := (containsSub_iff _ _).mp h
    rw [hq] at h1
    exact (singleton_infix_iff_mem _ _).mp h1
  rw [containsSub_iff, hqq]
  have hto : (escape_name name).toList
      = [btick] ++ (replaceChar btick [btick, btick] (pyStrip name [btick]).toList ++ [btick]) := by
    show (("`" : String) ++ pyReplaceChar (pyStrip name [btick]) btick "``" ++ "`").toList = _
    rw [toList_append, toList_append, hq]
    simp only [pyReplaceChar, toList_mk, hqq, List.append_assoc]
  rw [hto]
  have hdbl := replaceChar_btick_doubles _ hmem
  exact (hdbl.trans (List.prefix_append _ _).isInfix).trans
    (List.suffix_append _ _).isInfix

/-- Witness for `c9_escape_amended`: the doubling clause at the identifier
`` ab`cd ``, the wrapping clause at `` `a` `` (quote characters all
peripheral, so only wrapping — not doubling — applies there), and the
concrete full-name split. -/
theorem c9_escape_amended_witness :
    (containsSub (pyStrip "ab`cd" [btick]) "`" = true
      ∧ containsSub (escape_name "ab`cd") "``" = true)
    ∧ (containsSub "`a`" "`" = true
      ∧ (∃ mid, escape_name "`a`" = "`" ++ mid ++ "`"))
    ∧ escape_full_name "a.b.c" = String.intercalate "."
        ([escape_name "a", escape_name "b", escape_name "c"]) :=
  ⟨⟨by decide, c9_escape_amended.1 "ab`cd" (by decide)⟩,
   ⟨by decide, c9_escape_amended.2.1 "`a`" (by decide)⟩,
   c9_escape_amended.2.2⟩

/-! ## C3 — warehouse save_table batching -/

/-- `chunksOfGo` does not depend on the fuel once it covers the list
length. -/
theorem chunksOfGo_fuel_irrel (n : Nat) :
    ∀ fuel₁ fuel₂ (l : List α), l.length ≤ fuel₁ → l.length ≤ fuel₂ →
      chunksOfGo n fuel₁ l = chunksOfGo n fuel₂ l := by
  intro fuel₁
  induction fuel₁ with
  | zero =>
    intro fuel₂ l h1 h2
    have hl : l.length = 0 := Nat.le_zero.mp h1
    cases fuel₂ with
    | zero => rfl
    | succ j => rw [chunksOfGo, chunksOfGo, if_pos (Or.inl hl)]
  | succ m ih =>
    intro fuel₂ l h1 h2
    cases fuel₂ with
    | zero =>
      have hl : l.length = 0 := Nat.le_zero.mp h2
      rw [chunksOfGo, chunksOfGo, if_pos (Or.inl hl)]
    | succ j =>
      rw [chunksOfGo, chunksOfGo]
      by_cases hc : l.length = 0 ∨ n = 0
      · rw [if_pos hc, if_pos hc]
      · rw [if_neg hc, if_neg hc]
        push_neg at hc
        have hd : (l.drop n).length ≤ m := by
          rw [List.length_drop]
          omega
        have hd2 : (l.drop n).length ≤ j := by
          rw [List.length_drop]
          omega
        rw [ih j (l.drop n) hd hd2]

/-- The defining recurrence of `chunksOf`. -/
theorem chunksOf_eq (n : Nat) (l : List α) :
    chunksOf n l = if l.length = 0 ∨ n = 0 then [] else l.take n :: chunksOf n (l.drop n) := by
  by_cases hc : l.length = 0 ∨ n = 0
  · rw [if_pos hc, chunksOf]
    rcases hc with hc | hc
    · rw [hc, chunksOfGo]
    · cases hl : l.length with
      | zero => rw [chunksOfGo]
      | succ k => rw [chunksOfGo, if_pos (Or.inr hc)]
  · rw [if_neg hc]
    push_neg at hc
    obtain ⟨h1, h2⟩ := hc
    rw [chunksOf]
    cases hl : l.length with
    | zero => exact absurd hl h1
    | succ k =>
      rw [chunksOfGo, if_neg (by push_neg; exact ⟨h1, h2⟩)]
      congr 1
      rw [chunksOf]
      apply chunksOfGo_fuel_irrel
      · rw [List.length_drop, hl]
        omega
      · exact Nat.le_refl _

/-- `chunksOf` on a list of 2500 elements with batch size 1000 produces
exactly the three batches of the first 1000, the next 1000 and the last 500
elements. -/
theorem chunksOf_2500 (rows : List α) (h : rows.length = 2500) :
    chunksOf 1000 rows
      = [rows.take 1000, (rows.drop 1000).take 1000, (rows.drop 1000).drop 1000]
    ∧ (chunksOf 1000 rows).map List.length = [1000, 1000, 500] := by
  have h1 : chunksOf 1000 rows = rows.take 1000 :: chunksOf 1000 (rows.drop 1000) := by
    rw [chunksOf_eq, if_neg]
    push_neg
    omega
  have hd1 : (rows.drop 1000).length = 1500 := by rw [List.length_drop, h]
  have h2 : chunksOf 1000 (rows.drop 1000)
      = (rows.drop 1000).take 1000 :: chunksOf 1000 ((rows.drop 1000).drop 1000) := by
    rw [chunksOf_eq, if_neg]
    push_neg
    omega
  have hd2 : ((rows.drop 1000).drop 1000).length = 500 := by
    rw [List.length_drop, hd1]
  have h3 : chunksOf 1000 ((rows.drop 1000).drop 1000)
      = ((rows.drop 1000).drop 1000).take 1000
        :: chunksOf 1000 (((rows.drop 1000).drop 1000).drop 1000) := by
    rw [chunksOf_eq, if_neg]
    push_neg
    omega
  have hd3 : (((rows.drop 1000).drop 1000).drop 1000).length = 0 := by
    rw [List.length_drop, hd2]
  have h4 : chunksOf 1000 (((rows.drop 1000).drop 1000).drop 1000) = [] := by
    rw [chunksOf_eq, if_pos (Or.inl hd3)]
  have htk : ((rows.drop 1000).drop 1000).take 1000 = (rows.drop 1000).drop 1000 :=
    List.take_of_length_le (by omega)
  constructor
  · rw [h1, h2, h3, h4, htk]
  · rw [h1, h2, h3, h4, htk]
    simp only [List.map_cons, List.map_nil, List.length_take, List.length_drop, h]
    rfl

/-- C3: `save_table` in overwrite mode on 2500 records issues exactly one
`TRUNCATE` statement followed by exactly three batched `INSERT` statements of
1000, 1000 and 500 rows, in that order, each built from inlined escaped
literal values. -/
theorem c3_save_table_2500 (fullName : String) (fieldNames : List String)
    (rows : List (List PyVal)) (h : rows.length = 2500) :
    save_table fullName rows fieldNames "overwrite"
      = truncateStatement fullName
        :: [insertStatement fullName fieldNames (rows.take 1000),
            insertStatement fullName fieldNames ((rows.drop 1000).take 1000),
            insertStatement fullName fieldNames ((rows.drop 1000).drop 1000)]
    ∧ (chunksOf 1000 rows).map List.length = [1000, 1000, 500]
    ∧ (save_table fullName rows fieldNames "overwrite").length = 4 := by
  obtain ⟨hc, hlen⟩ := chunksOf_2500 rows h
  have hs : save_table fullName rows fieldNames "overwrite"
      = truncateStatement fullName
        :: (chunksOf 1000 rows).map (insertStatement fullName fieldNames) := by
    rw [save_table, if_neg (by omega), if_pos rfl]
    rfl
  refine ⟨?_, hlen, ?_⟩
  · rw [hs, hc]
    rfl
  · rw [hs, hc]
    rfl

/-- Witness for `c3_save_table_2500` on 2500 one-column integer records. -/
theorem c3_save_table_2500_witness :
    (List.replicate 2500 [PyVal.int 1]).length = 2500
    ∧ (save_table "c.s.t" (List.replicate 2500 [PyVal.int 1]) ["a"] "overwrite"
        = truncateStatement "c.s.t"
          :: [insertStatement "c.s.t" ["a"] ((List.replicate 2500 [PyVal.int 1]).take 1000),
              insertStatement "c.s.t" ["a"] (((List.replicate 2500 [PyVal.int 1]).drop 1000).take 1000),
              insertStatement "c.s.t" ["a"] (((List.replicate 2500 [PyVal.int 1]).drop 1000).drop 1000)]
      ∧ (chunksOf 1000 (List.replicate 2500 [PyVal.int 1])).map List.length = [1000, 1000, 500]
      ∧ (save_table "c.s.t" (List.replicate 2500 [PyVal.int 1]) ["a"] "overwrite").length = 4) :=
  ⟨by rw [List.length_replicate],
    c3_save_table_2500 "c.s.t" ["a"] (List.replicate 2500 [PyVal.int 1])
      (by rw [List.length_replicate])⟩

/-! ## C7 — retry wrapper with max_attempts = 3 -/

/-- One unfolding step of the retry loop. -/
theorem syncRetryGo_succ (r : ε → Bool) (f : Nat → Except ε α) (remaining attempt : Nat) :
    syncRetryGo r f (remaining + 1) attempt =
      match f attempt with
      | .ok a => (.ok a, attempt)
      | .error e =>
        if r e then
          if remaining = 0 then (.error (.exc e), attempt)
          else syncRetryGo r f remaining (attempt + 1)
        else (.error (.exc e), attempt) := rfl

/-- C7: with `max_attempts = 3`, a wrapped function that fails twice with a
retryable failure and then succeeds is called exactly 3 times and the success
value is returned; a non-retryable first failure propagates unmodified after
exactly 1 call; and when all three attempts fail with retryable failures, the
last observed failure is re-raised (after exactly 3 calls), not a synthetic
error. -/
theorem c7_retry_max3 (ε α : Type) (retryable : ε → Bool) :
    (∀ (f : Nat → Except ε α) (e1 e2 : ε) (v : α),
      f 1 = .error e1 → retryable e1 = true →
      f 2 = .error e2 → retryable e2 = true →
      f 3 = .ok v →
      syncRetry retryable 3 f = (.ok v, 3))
    ∧ (∀ (f : Nat → Except ε α) (e : ε),
      f 1 = .error e → retryable e = false →
      syncRetry retryable 3 f = (.error (.exc e), 1))
    ∧ (∀ (f : Nat → Except ε α) (e1 e2 e3 : ε),
      f 1 = .error e1 → retryable e1 = true →
      f 2 = .error e2 → retryable e2 = true →
      f 3 = .error e3 → retryable e3 = true →
      syncRetry retryable 3 f = (.error (.exc e3), 3)) := by
  refine ⟨?_, ?_, ?_⟩
  · intro f e1 e2 v h1 hr1 h2 hr2 h3
    show syncRetryGo retryable f (2 + 1) 1 = _
    rw [syncRetryGo_succ, h1]
    simp only [hr1, if_true, reduceIte]
    rw [show (2 : Nat) = 1 + 1 from rfl, syncRetryGo_succ, h2]
    simp only [hr2, if_true, reduceIte]
    rw [show (1 : Nat) = 0 + 1 from rfl, syncRetryGo_succ, h3]
    simp
  · intro f e h1 hr1
    show syncRetryGo retryable f (2 + 1) 1 = _
    rw [syncRetryGo_succ, h1]
    simp [hr1]
  · intro f e1 e2 e3 h1 hr1 h2 hr2 h3 hr3
    show syncRetryGo retryable f (2 + 1) 1 = _
    rw [syncRetryGo_succ, h1]
    simp only [hr1, if_true, reduceIte]
    rw [show (2 : Nat) = 1 + 1 from rfl, syncRetryGo_succ, h2]
    simp only [hr2, if_true, reduceIte]
    rw [show (1 : Nat) = 0 + 1 from rfl, syncRetryGo_succ, h3]
    simp [hr3]

/-- Witness for `c7_retry_max3` with concrete wrapped functions over string
failures, where only the failure `"transient"` is retryable. -/
theorem c7_retry_max3_witness :
    syncRetry (fun s => s == "transient") 3
        (fun i => if i == 3 then (.ok 42 : Except String Nat) else .error "transient")
      = (.ok 42, 3)
    ∧ syncRetry (fun s => s == "transient") 3 (fun _ => (.error "fatal" : Except String Nat))
      = (.error (.exc "fatal"), 1)
    ∧ syncRetry (fun s => s == "transient") 3 (fun _ => (.error "transient" : Except String Nat))
      = (.error (.exc "transient"), 3) :=
  ⟨(c7_retry_max3 String Nat (fun s => s == "transient")).1 _ "transient" "transient" 42
      (by decide) (by decide) (by decide) (by decide) (by decide),
   (c7_retry_max3 String Nat (fun s => s == "transient")).2.1 _ "fatal"
      (by decide) (by decide),
   (c7_retry_max3 String Nat (fun s => s == "transient")).2.2 _ "transient" "transient" "transient"
      (by decide) (by decide) (by decide) (by decide) (by decide) (by decide)⟩

/-! ## C4 — best-effort cell conversion -/


/-- A cell whose converter is tame never aborts. -/
theorem convertCell_tame (v : Option String) (conv : Option (String → Except PyExc PyVal))
    (h : ∀ f, conv = some f → tameConv f) :
    convertCell v conv = .ok (cellResult v conv) := by
  obtain ⟨x, hx⟩ : ∃ x, convertCell v conv = .ok x := by
    match v, conv with
    | none, _ => exact ⟨.null, rfl⟩
    | some s, none => exact ⟨.str s, rfl⟩
    | some s, some f =>
      cases hf : f s with
      | ok x => exact ⟨x, by simp [convertCell, hf]⟩
      | error e =>
        rcases h f rfl s e hf with he | he <;>
          exact ⟨.str s, by simp [convertCell, hf, he]⟩
  rw [hx, cellResult, hx]

/-- The `INT`/`BIGINT` converter only ever fails with `ValueError`. -/
theorem pyIntOfString_tame : tameConv pyIntOfString := by
  intro s e h
  rw [pyIntOfString] at h
  split at h
  · exact absurd h (by simp)
  · left
    exact (Except.error.injEq _ _).mp h.symm

/-- C4 (amended): a cell conversion that fails with `ValueError` or
`TypeError` degrades to the raw uninterpreted string for that cell, and when
every converter of the row only fails with those two classes, the whole row
converts cell by cell and the fetch never aborts.  (As stated over *any*
declared column type the claim is false: the `DECIMAL` converter raises
`decimal.InvalidOperation`, which escapes the handler — see the
counterexample.) -/
theorem c4_convert_row_amended (raw : List (Option String))
    (convs : List (Option (String → Except PyExc PyVal)))
    (hlen : raw.length = convs.length)
    (htame : ∀ f, some f ∈ convs → tameConv f) :
    _convert_row raw convs = .ok (List.zipWith cellResult raw convs)
    ∧ (∀ s f, f s = .error .valueError → convertCell (some s) (some f) = .ok (.str s))
    ∧ (∀ s f, f s = .error .typeError → convertCell (some s) (some f) = .ok (.str s)) := by
  refine ⟨?_, ?_, ?_⟩
  · induction raw generalizing convs with
    | nil =>
      cases convs with
      | nil => rfl
      | cons c cs => exact absurd hlen (by simp)
    | cons v vs ih =>
      cases convs with
      | nil => exact absurd hlen (by simp)
      | cons conv cs =>
        have hcell : convertCell v conv = .ok (cellResult v conv) :=
          convertCell_tame v conv (fun f hf => htame f (by rw [hf]; exact List.mem_cons_self _ _))
        have hrest : _convert_row vs cs = .ok (List.zipWith cellResult vs cs) :=
          ih cs (by simpa using hlen) (fun f hf => htame f (List.mem_cons_of_mem _ hf))
        rw [_convert_row, hcell, hrest]
        rfl
  · intro s f hf
    simp [convertCell, hf]
  · intro s f hf
    simp [convertCell, hf]

/-- Witness for `c4_convert_row_amended`: a row with a failing and a
succeeding `int` conversion and a SQL `NULL`; the failing cell degrades to
the raw string and the rest of the row is still converted. -/
theorem c4_convert_row_amended_witness :
    _convert_row [some "abc", some "12", none] [some pyIntOfString, some pyIntOfString, none]
      = .ok (List.zipWith cellResult [some "abc", some "12", none]
          [some pyIntOfString, some pyIntOfString, none])
    ∧ (∀ s f, f s = .error .valueError → convertCell (some s) (some f) = .ok (.str s))
    ∧ (∀ s f, f s = .error .typeError → convertCell (some s) (some f) = .ok (.str s)) :=
  c4_convert_row_amended [some "abc", some "12", none]
    [some pyIntOfString, some pyIntOfString, none] rfl
    (by
      intro f hf
      rcases List.mem_cons.mp hf with h1 | hf
      · cases h1
        exact pyIntOfString_tame
      rcases List.mem_cons.mp hf with h1 | hf
      · cases h1
        exact pyIntOfString_tame
      rcases List.mem_cons.mp hf with h1 | hf
      · exact absurd h1 (by simp)
      · exact absurd hf (by simp))

/-- C4 (as stated) is false: a `DECIMAL` cell holding `"xyz"` raises
`decimal.InvalidOperation` (an `ArithmeticError`, caught by neither
`except` branch), so the raw string is not substituted and the whole row —
including the convertible cell after it — is lost. -/
theorem c4_counterexample :
    _parse_decimal "xyz" = .error .arithmeticError
    ∧ _convert_row [some "xyz", some "7"] [some _parse_decimal, some pyIntOfString]
      = .error .arithmeticError := by decide

/-! ## C5 — invalidate forces the next refresh -/

/-- C5: `invalidate()` does not clear the cached token at that instant, and it
resets the freshness clock to 0 so that the immediately following
`get_token()` triggers a refresh regardless of the cached token and of how
recently it was fetched.  The wall clock `now` is `time.time()` in seconds
since the epoch, so `refreshInterval < now` always holds in practice. -/
theorem c5_invalidate (m : OAuthTokenManager) (env : EnvVars) (now : Nat)
    (h : m.refreshInterval < now) :
    m.invalidate.token = m.token
    ∧ m.invalidate.lastRefresh = 0
    ∧ (m.invalidate.get_token env now).2.2 = true := by
  refine ⟨rfl, rfl, ?_⟩
  rw [OAuthTokenManager.get_token, if_pos]
  right
  show m.refreshInterval < now - 0
  omega

/-- Witness for `c5_invalidate`: a manager holding a token fetched one second
ago still refreshes right after `invalidate()`. -/
theorem c5_invalidate_witness :
    ({ token := some "cachedtok", lastRefresh := 5000 : OAuthTokenManager}).invalidate.token
      = some "cachedtok"
    ∧ ({ token := some "cachedtok", lastRefresh := 5000 : OAuthTokenManager}).invalidate.lastRefresh
      = 0
    ∧ (({ token := some "cachedtok", lastRefresh := 5000 : OAuthTokenManager}).invalidate.get_token
        { pgPassword := none, databricksToken := none } 5001).2.2 = true :=
  c5_invalidate { token := some "cachedtok", lastRefresh := 5000 }
    { pgPassword := none, databricksToken := none } 5001 (by decide)

/-! ## C2 — get_token caching and refresh -/

/-- C2 (as stated) is false in its last clause: when every refresh strategy
fails but a stale token is cached, `get_token` returns the stale token
(`self._token or ""`), not the empty string. -/
theorem c2_counterexample :
    refreshCandidate
        { token := some "staletok", lastRefresh := 0, refreshInterval := 3000,
          workspaceClient := none, instanceName := none, useEnvFallback := true }
        { pgPassword := none, databricksToken := none } = none
    ∧ ({ token := some "staletok", lastRefresh := 0, refreshInterval := 3000,
          workspaceClient := none, instanceName := none,
          useEnvFallback := true : OAuthTokenManager }.get_token
        { pgPassword := none, databricksToken := none } 100000).1 = "staletok" := by decide

/-- C2 (amended): for a manager whose refresh succeeds, a second `get_token`
call while the token age is within the refresh interval returns the identical
token and triggers no second refresh; a call whose token was never fetched or
whose age exceeds the interval performs exactly one synchronous refresh and
returns its result; and if every refresh strategy fails *and no token was
previously cached*, `get_token` returns the empty string (with a stale cached
token, the stale token is returned instead — see the counterexample). -/
theorem c2_get_token_amended :
    (∀ (m : OAuthTokenManager) (env : EnvVars) (t1 t2 : Nat) (s : String),
      refreshCandidate m env = some s →
      t2 - (m.get_token env t1).2.1.lastRefresh ≤ m.refreshInterval →
      ((m.get_token env t1).2.1.get_token env t2).1 = (m.get_token env t1).1
      ∧ ((m.get_token env t1).2.1.get_token env t2).2.2 = false)
    ∧ (∀ (m : OAuthTokenManager) (env : EnvVars) (now : Nat) (s : String),
      refreshCandidate m env = some s →
      m.token = none ∨ m.refreshInterval < now - m.lastRefresh →
      m.get_token env now = (s, { m with token := some s, lastRefresh := now }, true))
    ∧ (∀ (m : OAuthTokenManager) (env : EnvVars) (now : Nat),
      refreshCandidate m env = none → m.token = none →
      (m.get_token env now).1 = "") := by
  have hchar : ∀ (m : OAuthTokenManager) (env : EnvVars) (t : Nat) (s : String),
      refreshCandidate m env = some s →
      m.get_token env t
        = if m.token = none ∨ m.refreshInterval < t - m.lastRefresh
          then (s, { m with token := some s, lastRefresh := t }, true)
          else (m.token.getD "", m, false) := by
    intro m env t s hs
    rw [OAuthTokenManager.get_token]
    by_cases hc : m.token = none ∨ m.refreshInterval < t - m.lastRefresh
    · rw [if_pos hc, if_pos hc, OAuthTokenManager._refresh_token, hs]
      rfl
    · rw [if_neg hc, if_neg hc]
  refine ⟨?_, ?_, ?_⟩
  · intro m env t1 t2 s hs h2
    rw [hchar m env t1 s hs] at h2 ⊢
    by_cases hc1 : m.token = none ∨ m.refreshInterval < t1 - m.lastRefresh
    · rw [if_pos hc1] at h2 ⊢
      have h2R : t2 - t1 ≤ m.refreshInterval := by simpa using h2
      have hs2 : refreshCandidate { m with token := some s, lastRefresh := t1 } env = some s := hs
      have hcond : ¬(({ m with token := some s, lastRefresh := t1 } : OAuthTokenManager).token = none
          ∨ ({ m with token := some s, lastRefresh := t1 } : OAuthTokenManager).refreshInterval
            < t2 - ({ m with token := some s, lastRefresh := t1 } : OAuthTokenManager).lastRefresh) := by
        push_neg
        exact ⟨by simp, by simpa using h2R⟩
      rw [hchar _ env t2 s hs2, if_neg hcond]
      exact ⟨rfl, rfl⟩
    · rw [if_neg hc1] at h2 ⊢
      push_neg at hc1
      have h2R : t2 - m.lastRefresh ≤ m.refreshInterval := by simpa using h2
      rw [hchar _ env t2 s hs, if_neg]
      · exact ⟨rfl, rfl⟩
      · push_neg
        exact ⟨hc1.1, by simpa using h2R⟩
  · intro m env now s hs hc
    rw [hchar m env now s hs, if_pos hc]
  · intro m env now hs htok
    rw [OAuthTokenManager.get_token, if_pos (Or.inl htok), OAuthTokenManager._refresh_token, hs]
    simp [htok]

/-- Witness for `c2_get_token_amended`: a manager whose `DATABRICKS_TOKEN`
fallback succeeds serves two calls 100 seconds apart from one refresh; a
never-fetched manager with no working strategy yields the empty string. -/
theorem c2_get_token_amended_witness :
    (((({} : OAuthTokenManager).get_token
          { pgPassword := none, databricksToken := some "envtok" } 100000).2.1.get_token
          { pgPassword := none, databricksToken := some "envtok" } 100100).1
        = (({} : OAuthTokenManager).get_token
          { pgPassword := none, databricksToken := some "envtok" } 100000).1
      ∧ ((({} : OAuthTokenManager).get_token
          { pgPassword := none, databricksToken := some "envtok" } 100000).2.1.get_token
          { pgPassword := none, databricksToken := some "envtok" } 100100).2.2 = false)
    ∧ ({} : OAuthTokenManager).get_token
          { pgPassword := none, databricksToken := some "envtok" } 100000
        = ("envtok", { token := some "envtok", lastRefresh := 100000 }, true)
    ∧ (({} : OAuthTokenManager).get_token
          { pgPassword := none, databricksToken := none } 100000).1 = "" :=
  ⟨c2_get_token_amended.1 {} { pgPassword := none, databricksToken := some "envtok" }
      100000 100100 "envtok" (by decide) (by decide),
   c2_get_token_amended.2.1 {} { pgPassword := none, databricksToken := some "envtok" }
      100000 "envtok" (by decide) (by decide),
   c2_get_token_amended.2.2 {} { pgPassword := none, databricksToken := none }
      100000 (by decide) rfl⟩

/-! ## C6 — dedicated-issuance managers ignore the environment -/

/-- C6: for a manager built by `from_workspace_client` (environment fallback
disabled), the refresh outcome and `get_token` result are independent of the
`PGPASSWORD` and `DATABRICKS_TOKEN` environment variables: two runs differing
only in those values agree exactly, so no environment value is ever returned
as the token. -/
theorem c6_from_workspace_client_env_independent (ws : WorkspaceClientEnv)
    (instanceName : Option String) (env1 env2 : EnvVars) (now : Nat) :
    (OAuthTokenManager.from_workspace_client ws instanceName)._refresh_token env1 now
      = (OAuthTokenManager.from_workspace_client ws instanceName)._refresh_token env2 now
    ∧ (OAuthTokenManager.from_workspace_client ws instanceName).get_token env1 now
      = (OAuthTokenManager.from_workspace_client ws instanceName).get_token env2 now := by
  have hcand : ∀ env : EnvVars,
      refreshCandidate (OAuthTokenManager.from_workspace_client ws instanceName) env
        = wsCandidate ws instanceName.isSome := by
    intro env
    cases hw : wsCandidate ws instanceName.isSome <;>
      simp [refreshCandidate, OAuthTokenManager.from_workspace_client, hw]
  constructor
  · rw [OAuthTokenManager._refresh_token, OAuthTokenManager._refresh_token, hcand, hcand]
  · rw [OAuthTokenManager.get_token, OAuthTokenManager.get_token,
      OAuthTokenManager._refresh_token, OAuthTokenManager._refresh_token, hcand, hcand]

/-! ## C1 — sync backend auth-error retry protocol -/

/-- `get_token` only ever rewrites the `token` and `lastRefresh` fields. -/
theorem get_token_shape (m : OAuthTokenManager) (env : EnvVars) (t : Nat) :
    ∃ tok lr, (m.get_token env t).2.1 = { m with token := tok, lastRefresh := lr } := by
  rw [OAuthTokenManager.get_token]
  by_cases hc : m.token = none ∨ m.refreshInterval < t - m.lastRefresh
  · rw [if_pos hc, OAuthTokenManager._refresh_token]
    cases hr : refreshCandidate m env with
    | some s => exact ⟨some s, t, rfl⟩
    | none => exact ⟨m.token, m.lastRefresh, rfl⟩
  · rw [if_neg hc]
    exact ⟨m.token, m.lastRefresh, rfl⟩

/-- A successful `_get_connection` on a token-managed backend yields some
connection and only rewrites the manager's freshness fields and the
connection slot. -/
theorem get_connection_shape (b : SyncLakebaseBackend) (env : EnvVars) (now : Nat)
    (cfg : PostgresConfig) (hcs : b.connectionString = none) (hcfg : b.pgConfig = some cfg) :
    ∃ c1 tok lr, b._get_connection env now
      = .ok (c1, { b with mgr := { b.mgr with token := tok, lastRefresh := lr },
                          conn := some c1 }) := by
  obtain ⟨bcs, bmgr, bcfg, bconn⟩ := b
  simp only at hcs hcfg
  subst hcs
  subst hcfg
  obtain ⟨tok, lr, hm⟩ := get_token_shape bmgr env now
  cases bconn with
  | none =>
    refine ⟨cfg.build_connection_string (bmgr.get_token env now).1, tok, lr, ?_⟩
    show Except.ok (cfg.build_connection_string (bmgr.get_token env now).1,
        ({ connectionString := none, mgr := (bmgr.get_token env now).2.1, pgConfig := some cfg,
           conn := some (cfg.build_connection_string (bmgr.get_token env now).1) }
          : SyncLakebaseBackend)) = _
    rw [hm]
  | some c =>
    refine ⟨c, tok, lr, ?_⟩
    show Except.ok (c,
        ({ connectionString := none, mgr := (bmgr.get_token env now).2.1, pgConfig := some cfg,
           conn := some c } : SyncLakebaseBackend)) = _
    rw [hm]

/-- After `_reconnect` (connection discarded, token invalidated), the next
`_get_connection` refreshes the token and opens a connection whose string is
built from the refreshed token. -/
theorem get_connection_invalidated (b : SyncLakebaseBackend) (env : EnvVars) (now : Nat)
    (cfg : PostgresConfig) (t : String)
    (hcs : b.connectionString = none) (hcfg : b.pgConfig = some cfg)
    (hconn : b.conn = none) (hlr : b.mgr.lastRefresh = 0)
    (hcand : refreshCandidate b.mgr env = some t)
    (hint : b.mgr.refreshInterval < now) :
    b._get_connection env now
      = .ok (cfg.build_connection_string t,
          { b with mgr := { b.mgr with token := some t, lastRefresh := now },
                   conn := some (cfg.build_connection_string t) }) := by
  obtain ⟨bcs, bmgr, bcfg, bconn⟩ := b
  simp only at hcs hcfg hconn hlr hcand hint
  subst hcs
  subst hcfg
  subst hconn
  have hget : bmgr.get_token env now
      = (t, { bmgr with token := some t, lastRefresh := now }, true) := by
    rw [OAuthTokenManager.get_token, if_pos (Or.inr (by rw [hlr]; omega)),
      OAuthTokenManager._refresh_token, hcand]
    rfl
  show Except.ok (cfg.build_connection_string (bmgr.get_token env now).1,
      ({ connectionString := none, mgr := (bmgr.get_token env now).2.1, pgConfig := some cfg,
         conn := some (cfg.build_connection_string (bmgr.get_token env now).1) }
        : SyncLakebaseBackend)) = _
  rw [hget]

/-- C1: for the sync Postgres-compatible backend (token-managed
configuration), on `execute` and `fetch`: an exception whose message matches
the auth heuristic triggers close, token invalidation, reopen with a freshly
refreshed token and exactly one retry whose outcome — success or failure —
is returned unmodified; an exception not matching the heuristic propagates
unmodified after a single attempt with no retry. -/
theorem c1_sync_backend_auth_retry (b : SyncLakebaseBackend) (env : EnvVars) (now : Nat)
    (cfg : PostgresConfig) (t : String)
    (hcs : b.connectionString = none) (hcfg : b.pgConfig = some cfg)
    (hcand : refreshCandidate b.mgr env = some t)
    (hint : b.mgr.refreshInterval < now) :
    (∀ (e : PgError) (o2 : Except PgError Int),
      LakebaseBackend._is_auth_error e = false →
      ∃ c1 b1, b.executeOp env now (.error e) o2 = (.error e, b1, [.attempt c1]))
    ∧ (∀ (e : PgError) (o2 : Except PgError Int),
      LakebaseBackend._is_auth_error e = true →
      ∃ c1, b.executeOp env now (.error e) o2
        = (o2,
           { b with mgr := { b.mgr with token := some t, lastRefresh := now },
                    conn := some (cfg.build_connection_string t) },
           [.attempt c1, .closeConn, .invalidateTok,
            .attempt (cfg.build_connection_string t)]))
    ∧ (∀ (e : PgError) (o2 : Except PgError (List String × List (List PyVal))),
      LakebaseBackend._is_auth_error e = false →
      ∃ c1 b1, b.fetchOp env now (.error e) o2 = (.error e, b1, [.attempt c1]))
    ∧ (∀ (e e2 : PgError),
      LakebaseBackend._is_auth_error e = true →
      ∃ c1, b.fetchOp env now (.error e) (.error e2)
        = (.error e2,
           { b with mgr := { b.mgr with token := some t, lastRefresh := now },
                    conn := some (cfg.build_connection_string t) },
           [.attempt c1, .closeConn, .invalidateTok,
            .attempt (cfg.build_connection_string t)]))
    ∧ (∀ (e : PgError) (cols : List String) (raws : List (List PyVal)),
      LakebaseBackend._is_auth_error e = true →
      ∃ c1, b.fetchOp env now (.error e) (.ok (cols, raws))
        = (.ok (raws.map fun r => ⟨cols, r⟩),
           { b with mgr := { b.mgr with token := some t, lastRefresh := now },
                    conn := some (cfg.build_connection_string t) },
           [.attempt c1, .closeConn, .invalidateTok,
            .attempt (cfg.build_connection_string t)])) := by
  obtain ⟨c1, tok1, lr1, hget1⟩ := get_connection_shape b env now cfg hcs hcfg
  have hget2 : ({ b with mgr := { b.mgr with token := tok1, lastRefresh := lr1 },
                         conn := some c1 } : SyncLakebaseBackend)._reconnect._get_connection env now
      = .ok (cfg.build_connection_string t,
          { b with mgr := { b.mgr with token := some t, lastRefresh := now },
                   conn := some (cfg.build_connection_string t) }) := by
    have := get_connection_invalidated
      ({ b with mgr := { b.mgr with token := tok1, lastRefresh := lr1 },
                conn := some c1 } : SyncLakebaseBackend)._reconnect env now cfg t
      hcs hcfg rfl rfl hcand hint
    exact this
  refine ⟨?_, ?_, ?_, ?_, ?_⟩
  · intro e o2 hauth
    refine ⟨c1, { b with mgr := { b.mgr with token := tok1, lastRefresh := lr1 },
                         conn := some c1 }, ?_⟩
    rw [SyncLakebaseBackend.executeOp, hget1]
    simp [hauth]
  · intro e o2 hauth
    refine ⟨c1, ?_⟩
    rw [SyncLakebaseBackend.executeOp, hget1]
    simp only [hauth, if_true, reduceIte]
    rw [hget2]
  · intro e o2 hauth
    refine ⟨c1, { b with mgr := { b.mgr with token := tok1, lastRefresh := lr1 },
                         conn := some c1 }, ?_⟩
    rw [SyncLakebaseBackend.fetchOp, hget1]
    simp [hauth]
  · intro e e2 hauth
    refine ⟨c1, ?_⟩
    rw [SyncLakebaseBackend.fetchOp, hget1]
    simp only [hauth, if_true, reduceIte]
    rw [hget2]
  · intro e cols raws hauth
    refine ⟨c1, ?_⟩
    rw [SyncLakebaseBackend.fetchOp, hget1]
    simp only [hauth, if_true, reduceIte]
    rw [hget2]

/-- Witness for `c1_sync_backend_auth_retry` on a concrete backend whose
`DATABRICKS_TOKEN` fallback refreshes to `"newtok"`: a non-auth failure
propagates after one attempt; a password-auth failure triggers close,
invalidation and a reopen on the connection string built from the refreshed
token. -/
theorem c1_sync_backend_auth_retry_witness :
    (∃ c1 b1, SyncLakebaseBackend.executeOp
        { connectionString := none, mgr := {}, pgConfig := some { host := "h" }, conn := none }
        { pgPassword := none, databricksToken := some "newtok" } 100000
        (.error { msg := "syntax error" }) (.ok 5)
      = (.error { msg := "syntax error" }, b1, [.attempt c1]))
    ∧ (∃ c1, SyncLakebaseBackend.executeOp
        { connectionString := none, mgr := {}, pgConfig := some { host := "h" }, conn := none }
        { pgPassword := none, databricksToken := some "newtok" } 100000
        (.error { msg := "FATAL: password authentication failed" }) (.ok 5)
      = (.ok 5,
         { connectionString := none,
           mgr := { token := some "newtok", lastRefresh := 100000 },
           pgConfig := some { host := "h" },
           conn := some (PostgresConfig.build_connection_string { host := "h" } "newtok") },
         [.attempt c1, .closeConn, .invalidateTok,
          .attempt (PostgresConfig.build_connection_string { host := "h" } "newtok")])) :=
  ⟨(c1_sync_backend_auth_retry
      { connectionString := none, mgr := {}, pgConfig := some { host := "h" }, conn := none }
      { pgPassword := none, databricksToken := some "newtok" } 100000 { host := "h" } "newtok"
      rfl rfl (by decide) (by decide)).1
      { msg := "syntax error" } (.ok 5) (by decide),
   (c1_sync_backend_auth_retry
      { connectionString := none, mgr := {}, pgConfig := some { host := "h" }, conn := none }
      { pgPassword := none, databricksToken := some "newtok" } 100000 { host := "h" } "newtok"
      rfl rfl (by decide) (by decide)).2.1
      { msg := "FATAL: password authentication failed" } (.ok 5) (by decide)⟩

/-! ## Cache lemma kit, shared by the TTL cache claims -/

section CacheLemmas

variable {κ ν : Type} [DecidableEq κ]

/-- A found entry belongs to the list. -/
theorem lookupKey_mem {key : κ} {l : List (κ × ν × Nat)} {ve : ν × Nat}
    (h : lookupKey key l = some ve) : (key, ve) ∈ l := by
  induction l with
  | nil => exact absurd h (by simp [lookupKey])
  | cons e rest ih =>
    rw [lookupKey] at h
    by_cases he : e.1 = key
    · rw [if_pos he] at h
      obtain ⟨e1, e2⟩ := e
      simp only at he
      simp only [Option.some.injEq] at h
      subst he
      subst h
      exact List.mem_cons_self _ _
    · rw [if_neg he] at h
      exact List.mem_cons_of_mem e (ih h)

/-- `lookupKey` misses exactly the absent keys. -/
theorem lookupKey_eq_none_iff {key : κ} {l : List (κ × ν × Nat)} :
    lookupKey key l = none ↔ key ∉ cacheKeys l := by
  induction l with
  | nil => simp [lookupKey, cacheKeys]
  | cons e rest ih =>
    rw [lookupKey, cacheKeys]
    by_cases he : e.1 = key
    · rw [if_pos he]
      simp [he]
    · rw [if_neg he]
      simp only [List.map_cons, List.mem_cons]
      constructor
      · intro h hk
        rcases hk with hk | hk
        · exact he hk.symm
        · exact (ih.mp h) (by rw [cacheKeys]; exact hk)
      · intro h
        exact ih.mpr (fun hk => h (Or.inr hk))

/-- A member entry is found under its key, provided keys are unique. -/
theorem mem_lookupKey {key : κ} {l : List (κ × ν × Nat)} {ve : ν × Nat}
    (hnd : (cacheKeys l).Nodup) (h : (key, ve) ∈ l) : lookupKey key l = some ve := by
  induction l with
  | nil => exact absurd h (by simp)
  | cons e rest ih =>
    rw [cacheKeys, List.map_cons, List.nodup_cons] at hnd
    rw [lookupKey]
    rcases List.mem_cons.mp h with he | he
    · rw [if_pos (by rw [← he])]
      rw [← he]
    · have hke : e.1 ≠ key := by
        intro hk
        exact hnd.1 (by
          rw [hk]
          exact List.mem_map.mpr ⟨(key, ve), he, rfl⟩)
      rw [if_neg hke]
      exact ih hnd.2 he

/-- Erasing an absent key is the identity. -/
theorem eraseKey_of_not_mem {key : κ} {l : List (κ × ν × Nat)}
    (h : key ∉ cacheKeys l) : eraseKey key l = l := by
  induction l with
  | nil => rfl
  | cons e rest ih =>
    rw [cacheKeys, List.map_cons, List.mem_cons] at h
    push_neg at h
    rw [eraseKey, if_neg (fun hk => h.1 hk.symm), ih h.2]

/-- With unique keys, the erased key is gone. -/
theorem eraseKey_not_mem {key : κ} {l : List (κ × ν × Nat)}
    (hnd : (cacheKeys l).Nodup) : key ∉ cacheKeys (eraseKey key l) := by
  induction l with
  | nil => simp [eraseKey, cacheKeys]
  | cons e rest ih =>
    rw [cacheKeys, List.map_cons, List.nodup_cons] at hnd
    rw [eraseKey]
    by_cases he : e.1 = key
    · rw [if_pos he]
      rw [he] at hnd
      exact hnd.1
    · rw [if_neg he]
      rw [cacheKeys, List.map_cons, List.mem_cons]
      push_neg
      exact ⟨fun hk => he hk.symm, ih hnd.2⟩

/-- Erasing preserves uniqueness of keys. -/
theorem eraseKey_nodup {key : κ} {l : List (κ × ν × Nat)}
    (hnd : (cacheKeys l).Nodup) : (cacheKeys (eraseKey key l)).Nodup := by
  induction l with
  | nil => simpa [eraseKey] using hnd
  | cons e rest ih =>
    rw [cacheKeys, List.map_cons, List.nodup_cons] at hnd
    rw [eraseKey]
    by_cases he : e.1 = key
    · rw [if_pos he]
      exact hnd.2
    · rw [if_neg he]
      rw [cacheKeys, List.map_cons, List.nodup_cons]
      refine ⟨?_, ih hnd.2⟩
      intro hk
      have hsub : cacheKeys (eraseKey key rest) ⊆ cacheKeys rest := by
        intro a ha
        obtain ⟨ent, hent, rfl⟩ := List.mem_map.mp ha
        have : ent ∈ rest := by
          have hstep : ∀ (m : List (κ × ν × Nat)), ent ∈ eraseKey key m → ent ∈ m := by
            intro m
            induction m with
            | nil => intro hx; exact absurd hx (by simp [eraseKey])
            | cons e2 r2 ih2 =>
              rw [eraseKey]
              by_cases h2 : e2.1 = key
              · rw [if_pos h2]
                exact fun hx => List.mem_cons_of_mem _ hx
              · rw [if_neg h2]
                intro hx
                rcases List.mem_cons.mp hx with hx | hx
                · exact hx ▸ List.mem_cons_self _ _
                · exact List.mem_cons_of_mem _ (ih2 hx)
          exact hstep rest hent
        exact List.mem_map.mpr ⟨ent, this, rfl⟩
      exact hnd.1 (hsub hk)

end CacheLemmas

section CacheLemmas2

variable {κ ν : Type} [DecidableEq κ]

omit [DecidableEq κ] in
/-- `evictOverGo` leaves short-enough lists untouched, whatever the fuel. -/
theorem evictOverGo_of_le {maxsize : Nat} {l : List (κ × ν × Nat)}
    (h : l.length ≤ maxsize) : ∀ fuel, evictOverGo maxsize fuel l = l := by
  intro fuel
  cases fuel with
  | zero => rfl
  | succ m => rw [evictOverGo, if_neg (by omega)]

omit [DecidableEq κ] in
/-- Eviction on a list one over capacity pops exactly the head. -/
theorem evictOver_of_succ {maxsize : Nat} {l : List (κ × ν × Nat)}
    (h : l.length = maxsize + 1) : evictOver maxsize l = l.tail := by
  rw [evictOver, h, evictOverGo, if_pos (by omega)]
  exact evictOverGo_of_le (by rw [List.length_tail, h]; omega) maxsize

omit [DecidableEq κ] in
/-- Eviction within capacity does nothing. -/
theorem evictOver_of_le {maxsize : Nat} {l : List (κ × ν × Nat)}
    (h : l.length ≤ maxsize) : evictOver maxsize l = l := by
  rw [evictOver]
  exact evictOverGo_of_le h l.length

omit [DecidableEq κ] in
/-- The evicted list is a suffix of the input. -/
theorem evictOver_suffix (maxsize : Nat) (l : List (κ × ν × Nat)) :
    evictOver maxsize l <:+ l := by
  rw [evictOver]
  have hgo : ∀ fuel (m : List (κ × ν × Nat)), evictOverGo maxsize fuel m <:+ m := by
    intro fuel
    induction fuel with
    | zero => exact fun m => List.suffix_refl m
    | succ j ih =>
      intro m
      rw [evictOverGo]
      by_cases hc : maxsize < m.length
      · rw [if_pos hc]
        exact (ih m.tail).trans (List.tail_suffix m)
      · rw [if_neg hc]
  exact hgo l.length l

/-- Writing an absent key appends its entry. -/
theorem dictSet_of_not_mem {key : κ} {v : ν} {exp : Nat} {l : List (κ × ν × Nat)}
    (h : key ∉ cacheKeys l) : dictSet key v exp l = l ++ [(key, v, exp)] := by
  induction l with
  | nil => rfl
  | cons e rest ih =>
    rw [cacheKeys, List.map_cons, List.mem_cons] at h
    push_neg at h
    rw [dictSet, if_neg (fun hk => h.1 hk.symm), ih h.2]
    rfl

/-- `dictSet` stores the entry under its key at the first occurrence, so a
lookup finds exactly the written value. -/
theorem lookupKey_dictSet (key : κ) (v : ν) (exp : Nat) (l : List (κ × ν × Nat)) :
    lookupKey key (dictSet key v exp l) = some (v, exp) := by
  induction l with
  | nil => simp [dictSet, lookupKey]
  | cons e rest ih =>
    rw [dictSet]
    by_cases he : e.1 = key
    · rw [if_pos he, lookupKey, if_pos rfl]
    · rw [if_neg he, lookupKey, if_neg he]
      exact ih

/-- `moveToEnd` preserves uniqueness of keys. -/
theorem moveToEnd_nodup {key : κ} {l : List (κ × ν × Nat)}
    (hnd : (cacheKeys l).Nodup) : (cacheKeys (moveToEnd key l)).Nodup := by
  rw [moveToEnd]
  cases hl : lookupKey key l with
  | none => exact hnd
  | some ve =>
    have h1 : cacheKeys (eraseKey key l ++ [(key, ve.1, ve.2)])
        = cacheKeys (eraseKey key l) ++ [key] := by
      rw [cacheKeys, cacheKeys, List.map_append]
      rfl
    rw [h1]
    rw [List.nodup_append]
    refine ⟨eraseKey_nodup hnd, List.nodup_singleton key, ?_⟩
    intro a ha hb
    have hak : a = key := by simpa using hb
    rw [hak] at ha
    exact eraseKey_not_mem hnd ha

/-- In a suffix of a uniquely-keyed list, a lookup either misses or agrees
with the full list. -/
theorem lookupKey_suffix {key : κ} {s l : List (κ × ν × Nat)}
    (hnd : (cacheKeys l).Nodup) (hsuf : s <:+ l) :
    lookupKey key s = none ∨ lookupKey key s = lookupKey key l := by
  cases hs : lookupKey key s with
  | none => exact Or.inl rfl
  | some ve =>
    right
    rw [mem_lookupKey hnd (hsuf.subset (lookupKey_mem hs))]

end CacheLemmas2

section CacheLemmas3

variable {κ ν : Type} [DecidableEq κ]

/-- Writing over the unique trailing entry for a key replaces it in place. -/
theorem dictSet_append_self {key : κ} {v w : ν} {exp x : Nat} {a : List (κ × ν × Nat)}
    (h : key ∉ cacheKeys a) :
    dictSet key v exp (a ++ [(key, w, x)]) = a ++ [(key, v, exp)] := by
  induction a with
  | nil => simp [dictSet]
  | cons e rest ih =>
    rw [cacheKeys, List.map_cons, List.mem_cons] at h
    push_neg at h
    rw [List.cons_append, dictSet, if_neg (fun hk => h.1 hk.symm), ih h.2]
    rfl

/-- A lookup behind a prefix free of the key finds the appended entry. -/
theorem lookupKey_append_not_mem {key : κ} {ve : ν × Nat} {a : List (κ × ν × Nat)}
    (h : key ∉ cacheKeys a) :
    lookupKey key (a ++ [(key, ve.1, ve.2)]) = some ve := by
  induction a with
  | nil => simp [lookupKey]
  | cons e rest ih =>
    rw [cacheKeys, List.map_cons, List.mem_cons] at h
    push_neg at h
    rw [List.cons_append, lookupKey, if_neg (fun hk => h.1 hk.symm), ih h.2]

/-- `TTLCache.set` always produces (up to eviction) a uniquely-keyed list
ending in the fresh entry. -/
theorem set_cache_shape (c : TTLCache κ ν) (key : κ) (v : ν) (now : Nat)
    (hnd : (cacheKeys c.cache).Nodup) :
    ∃ l2, (c.set key v now).cache = evictOver c.maxsize (l2 ++ [(key, v, now + c.ttl_seconds)])
      ∧ key ∉ cacheKeys l2 ∧ (cacheKeys l2).Nodup := by
  rw [TTLCache.set]
  cases hl : lookupKey key c.cache with
  | none =>
    refine ⟨c.cache, ?_, lookupKey_eq_none_iff.mp hl, hnd⟩
    rw [if_neg (by simp)]
    rw [dictSet_of_not_mem (lookupKey_eq_none_iff.mp hl)]
  | some ve =>
    refine ⟨eraseKey key c.cache, ?_, eraseKey_not_mem hnd, eraseKey_nodup hnd⟩
    rw [if_pos (by simp)]
    have hmv : moveToEnd key c.cache = eraseKey key c.cache ++ [(key, ve.1, ve.2)] := by
      rw [moveToEnd, hl]
    rw [hmv, dictSet_append_self (eraseKey_not_mem hnd)]

/-- After `set`, a lookup of the written key either misses (evicted) or sees
exactly the written value with the fresh expiry. -/
theorem lookupKey_set (c : TTLCache κ ν) (key : κ) (v : ν) (now : Nat)
    (hnd : (cacheKeys c.cache).Nodup) :
    lookupKey key (c.set key v now).cache = none
    ∨ lookupKey key (c.set key v now).cache = some (v, now + c.ttl_seconds) := by
  obtain ⟨l2, hshape, hnm, hnd2⟩ := set_cache_shape c key v now hnd
  have hndL : (cacheKeys (l2 ++ [(key, v, now + c.ttl_seconds)])).Nodup := by
    have hkeys : cacheKeys (l2 ++ [(key, v, now + c.ttl_seconds)]) = cacheKeys l2 ++ [key] := by
      rw [cacheKeys, cacheKeys, List.map_append]
      rfl
    rw [hkeys, List.nodup_append]
    refine ⟨hnd2, List.nodup_singleton key, ?_⟩
    intro a ha hb
    have hak : a = key := by simpa using hb
    rw [hak] at ha
    exact hnm ha
  have hfull : lookupKey key (l2 ++ [(key, v, now + c.ttl_seconds)])
      = some (v, now + c.ttl_seconds) :=
    @lookupKey_append_not_mem κ ν _ key (v, now + c.ttl_seconds) l2 hnm
  rw [hshape]
  rcases lookupKey_suffix hndL (evictOver_suffix c.maxsize _) with h | h
  · exact Or.inl h
  · rw [h, hfull]
    exact Or.inr rfl

/-- `get` preserves uniqueness of keys. -/
theorem get_nodup (c : TTLCache κ ν) (key : κ) (now : Nat)
    (hnd : (cacheKeys c.cache).Nodup) : (cacheKeys (c.get key now).2.cache).Nodup := by
  cases hl : lookupKey key c.cache with
  | none =>
    simp only [TTLCache.get, hl]
    exact hnd
  | some ve =>
    obtain ⟨v, exp⟩ := ve
    by_cases hexp : exp < now
    · simp only [TTLCache.get, hl, if_pos hexp]
      exact eraseKey_nodup hnd
    · simp only [TTLCache.get, hl, if_neg hexp]
      exact moveToEnd_nodup hnd

end CacheLemmas3

/-! ## C8 — TTL cache eviction and expiry -/

section C8Lemmas

variable {κ ν : Type} [DecidableEq κ]

/-- Erasing a present key shortens the list by exactly one entry. -/
theorem eraseKey_length {key : κ} {l : List (κ × ν × Nat)} {ve : ν × Nat}
    (h : lookupKey key l = some ve) : (eraseKey key l).length + 1 = l.length := by
  induction l with
  | nil => exact absurd h (by simp [lookupKey])
  | cons e rest ih =>
    rw [lookupKey] at h
    rw [eraseKey]
    by_cases he : e.1 = key
    · rw [if_pos he]
      rfl
    · rw [if_neg he] at h ⊢
      rw [List.length_cons, List.length_cons, ih h]

end C8Lemmas

/-- C8: for a TTL cache at capacity `N ≥ 1`, inserting a fresh key evicts
exactly the least-recently-used (head) entry, leaving the cache at size `N`
with the new entry at the most-recent end; `get` on an entry older than its
TTL returns absent and removes that entry; and recency is refreshed both by
an unexpired read and by a write to an existing key. -/
theorem c8_ttl_cache (κ ν : Type) [DecidableEq κ] :
    (∀ (c : TTLCache κ ν) (key : κ) (v : ν) (now : Nat),
      0 < c.maxsize → c.cache.length = c.maxsize → key ∉ cacheKeys c.cache →
      (c.set key v now).cache = c.cache.tail ++ [(key, v, now + c.ttl_seconds)]
      ∧ (c.set key v now).cache.length = c.maxsize)
    ∧ (∀ (c : TTLCache κ ν) (key : κ) (now : Nat) (v : ν) (exp : Nat),
      (cacheKeys c.cache).Nodup →
      lookupKey key c.cache = some (v, exp) → exp < now →
      (c.get key now).1 = none
      ∧ (c.get key now).2.cache = eraseKey key c.cache
      ∧ key ∉ cacheKeys (c.get key now).2.cache)
    ∧ (∀ (c : TTLCache κ ν) (key : κ) (now : Nat) (v : ν) (exp : Nat),
      lookupKey key c.cache = some (v, exp) → ¬ exp < now →
      (c.get key now).1 = some v
      ∧ (c.get key now).2.cache = eraseKey key c.cache ++ [(key, v, exp)])
    ∧ (∀ (c : TTLCache κ ν) (key : κ) (v : ν) (now : Nat) (ve : ν × Nat),
      (cacheKeys c.cache).Nodup →
      lookupKey key c.cache = some ve → c.cache.length ≤ c.maxsize →
      (c.set key v now).cache = eraseKey key c.cache ++ [(key, v, now + c.ttl_seconds)]) := by
  refine ⟨?_, ?_, ?_, ?_⟩
  · intro c key v now hmax hfull hfresh
    have hl : lookupKey key c.cache = none := lookupKey_eq_none_iff.mpr hfresh
    have hset : (c.set key v now).cache
        = evictOver c.maxsize (c.cache ++ [(key, v, now + c.ttl_seconds)]) := by
      rw [TTLCache.set, hl]
      rw [if_neg (by simp)]
      rw [dictSet_of_not_mem hfresh]
    have hlen : (c.cache ++ [(key, v, now + c.ttl_seconds)]).length = c.maxsize + 1 := by
      rw [List.length_append, hfull]
      rfl
    have htail : (c.cache ++ [(key, v, now + c.ttl_seconds)]).tail
        = c.cache.tail ++ [(key, v, now + c.ttl_seconds)] := by
      cases hc : c.cache with
      | nil => rw [hc, List.length_nil] at hfull; omega
      | cons e rest => rfl
    constructor
    · rw [hset, evictOver_of_succ hlen, htail]
    · rw [hset, evictOver_of_succ hlen, htail, List.length_append, List.length_tail, hfull]
      simp only [List.length_cons, List.length_nil]
      omega
  · intro c key now v exp hnd hl hexp
    refine ⟨?_, ?_, ?_⟩
    · simp only [TTLCache.get, hl, if_pos hexp]
    · simp only [TTLCache.get, hl, if_pos hexp]
    · simp only [TTLCache.get, hl, if_pos hexp]
      exact eraseKey_not_mem hnd
  · intro c key now v exp hl hexp
    constructor
    · simp only [TTLCache.get, hl, if_neg hexp]
    · simp only [TTLCache.get, hl, if_neg hexp]
      rw [moveToEnd, hl]
  · intro c key v now ve hnd hl hle
    have hmv : moveToEnd key c.cache = eraseKey key c.cache ++ [(key, ve.1, ve.2)] := by
      rw [moveToEnd, hl]
    rw [TTLCache.set, hl]
    rw [if_pos (by simp)]
    rw [hmv, dictSet_append_self (eraseKey_not_mem hnd)]
    apply evictOver_of_le
    rw [List.length_append]
    have := eraseKey_length hl
    simp only [List.length_cons, List.length_nil]
    omega

/-- Witness for `c8_ttl_cache` on a concrete two-entry cache of capacity 2:
inserting key 3 evicts exactly the LRU entry for key 1; reading key 1 of a
single-entry cache past its expiry returns absent and removes it. -/
theorem c8_ttl_cache_witness :
    ((TTLCache.set { maxsize := 2, ttl_seconds := 10,
                     cache := [(1, "a", 100), (2, "b", 100)] } 3 "c" 5).cache
        = [(2, "b", 100), (3, "c", 15)]
      ∧ (TTLCache.set { maxsize := 2, ttl_seconds := 10,
                        cache := [(1, "a", 100), (2, "b", 100)] } 3 "c" 5).cache.length = 2)
    ∧ ((TTLCache.get { maxsize := 2, ttl_seconds := 10,
                       cache := [((1 : Nat), "a", (3 : Nat))] } 1 5).1 = none
      ∧ (TTLCache.get { maxsize := 2, ttl_seconds := 10,
                        cache := [((1 : Nat), "a", (3 : Nat))] } 1 5).2.cache = []
      ∧ (1 : Nat) ∉ cacheKeys (TTLCache.get { maxsize := 2, ttl_seconds := 10,
                                              cache := [((1 : Nat), "a", (3 : Nat))] } 1 5).2.cache) := by
  constructor
  · have h := (c8_ttl_cache Nat String).1
      { maxsize := 2, ttl_seconds := 10, cache := [(1, "a", 100), (2, "b", 100)] }
      3 "c" 5 (by decide) (by decide) (by decide)
    exact ⟨h.1, h.2⟩
  · have h := (c8_ttl_cache Nat String).2.1
      { maxsize := 2, ttl_seconds := 10, cache := [((1 : Nat), "a", (3 : Nat))] }
      1 5 "a" 3 (by decide) (by decide) (by decide)
    exact ⟨h.1, h.2.1, h.2.2⟩

/-! ## C10 — ttl_cache never effectively caches None results -/

/-- When the cache read (flattened, as the wrapper sees it) yields `None`,
the wrapper invokes the underlying function. -/
theorem ttlWrapperCall_invokes {κ ν : Type} [DecidableEq κ] (c : TTLCache κ (Option ν))
    (f : κ → Option ν) (key : κ) (now : Nat)
    (h : (c.get key now).1.join = none) : (ttlWrapperCall c f key now).2.2 = true := by
  simp only [ttlWrapperCall, h]

/-- C10: a wrapped call whose result is `None` is never effectively cached —
the wrapper stores `None` but its `if result is not None` test cannot tell a
stored `None` from a miss or an expired entry, so the call that produced
`None` did invoke the function, and every subsequent call with the same
arguments invokes it again. -/
theorem c10_ttl_cache_none_recomputed {κ ν : Type} [DecidableEq κ]
    (c : TTLCache κ (Option ν)) (f : κ → Option ν) (key : κ) (t1 t2 : Nat)
    (hnd : (cacheKeys c.cache).Nodup)
    (hres : (ttlWrapperCall c f key t1).1 = none) :
    (ttlWrapperCall c f key t1).2.2 = true
    ∧ (ttlWrapperCall (ttlWrapperCall c f key t1).2.1 f key t2).2.2 = true := by
  cases hj : (c.get key t1).1.join with
  | some x =>
    exact absurd hres (by simp only [ttlWrapperCall, hj]; simp)
  | none =>
    have hw : ttlWrapperCall c f key t1 = (f key, (c.get key t1).2.set key (f key) t1, true) := by
      simp only [ttlWrapperCall, hj]
    have hf : f key = none := by
      rw [hw] at hres
      exact hres
    refine ⟨by rw [hw], ?_⟩
    rw [hw]
    simp only [hf]
    show (ttlWrapperCall ((c.get key t1).2.set key none t1) f key t2).2.2 = true
    have hnd1 : (cacheKeys (c.get key t1).2.cache).Nodup := get_nodup c key t1 hnd
    apply ttlWrapperCall_invokes
    have hlk := lookupKey_set (c.get key t1).2 key none t1 hnd1
    revert hlk
    generalize (c.get key t1).2.set key none t1 = C
    generalize t1 + (c.get key t1).2.ttl_seconds = E
    intro hlk
    rcases hlk with hlk | hlk
    · simp only [TTLCache.get, hlk]
      rfl
    · simp only [TTLCache.get, hlk]
      by_cases hexp : E < t2
      · rw [if_pos hexp]
        rfl
      · rw [if_neg hexp]
        rfl

/-- Witness for `c10_ttl_cache_none_recomputed`: an empty cache, a function
constantly `None`; both the first and the second call invoke it. -/
theorem c10_ttl_cache_none_recomputed_witness :
    (ttlWrapperCall ({ maxsize := 4, ttl_seconds := 10, cache := [] } : TTLCache Nat (Option Nat))
        (fun _ => none) 1 0).1 = none
    ∧ ((ttlWrapperCall ({ maxsize := 4, ttl_seconds := 10, cache := [] } : TTLCache Nat (Option Nat))
          (fun _ => none) 1 0).2.2 = true
      ∧ (ttlWrapperCall
          (ttlWrapperCall ({ maxsize := 4, ttl_seconds := 10, cache := [] } : TTLCache Nat (Option Nat))
            (fun _ => none) 1 0).2.1
          (fun _ => none) 1 1).2.2 = true) :=
  ⟨by decide,
   c10_ttl_cache_none_recomputed
     ({ maxsize := 4, ttl_seconds := 10, cache := [] } : TTLCache Nat (Option Nat))
     (fun _ => none) 1 0 1 (by decide) (by decide)⟩
